import Mathlib

/-!
Verification of the rlog logging library (rlog.go) against its
natural-language specification.  The Go code is shallowly embedded:
Go strings are modelled at the rune level by Lean String / List Char,
machine integers by Int, and fallible code by Option / Except.  The
standard-library functions the code calls (strings.Split, strconv.Atoi,
filepath.Match, filepath.Base, path.Split, strings.TrimSpace,
strings.ToUpper, strconv.ParseBool) are embedded alongside, following
the Go library sources.
-/

namespace Rlog

/-! ### Level model (rlog.go lines 33-67) -/

def notATrace : Int := -1
def noTraceOutput : Int := -1

def levelNone : Int := 0
def levelCrit : Int := 1
def levelErr : Int := 2
def levelWarn : Int := 3
def levelInfo : Int := 4
def levelDebug : Int := 5
def levelTrace : Int := 6

/-- Go map levelNumbers: translation from level string to number. -/
def levelNumbers (s : String) : Option Int :=
  if s = "TRACE" then some levelTrace
  else if s = "DEBUG" then some levelDebug
  else if s = "INFO" then some levelInfo
  else if s = "WARN" then some levelWarn
  else if s = "ERROR" then some levelErr
  else if s = "CRITICAL" then some levelCrit
  else if s = "NONE" then some levelNone
  else none

/-! ### Go standard-library string helpers -/

/-- Go strings.Split with a one-character separator: splits around every
occurrence of the separator; the empty string yields one empty field. -/
def splitOnChar (sep : Char) : List Char → List (List Char)
  | [] => [[]]
  | c :: t =>
    match splitOnChar sep t with
    | [] => [[]]
    | h :: r => if c = sep then [] :: h :: r else (c :: h) :: r

/-- Go strings.Split lifted to String (the code only splits on "," and "="). -/
def goSplit (s : String) (sep : Char) : List String :=
  (splitOnChar sep s.data).map fun l => ⟨l⟩

/-- Go strings.SplitN(line, "=", 2): the text before the first separator and
the text after it, or none when the separator does not occur. -/
def splitN2 (sep : Char) : List Char → Option (List Char × List Char)
  | [] => none
  | c :: t =>
    if c = sep then some ([], t)
    else (splitN2 sep t).map fun p => (c :: p.1, p.2)

/-- Go unicode.IsSpace: the code points Go treats as white space. -/
def goIsSpace (c : Char) : Bool :=
  c == ' ' || c == '\t' || c == '\n' || c.toNat == 11 || c.toNat == 12 ||
  c == '\r' || c.toNat == 0x85 || c.toNat == 0xA0 || c.toNat == 0x1680 ||
  (0x2000 ≤ c.toNat && c.toNat ≤ 0x200A) || c.toNat == 0x2028 ||
  c.toNat == 0x2029 || c.toNat == 0x202F || c.toNat == 0x205F ||
  c.toNat == 0x3000

/-- Go strings.TrimSpace on a rune list. -/
def goTrimSpaceList (l : List Char) : List Char :=
  ((l.dropWhile goIsSpace).reverse.dropWhile goIsSpace).reverse

/-- Go strings.TrimSpace. -/
def goTrimSpace (s : String) : String := ⟨goTrimSpaceList s.data⟩

/-- Go unicode.ToUpper on one rune, restricted to the mappings that can reach
the ASCII range: the ASCII lower-case letters, dotless i (U+0131 maps to I)
and long s (U+017F maps to S).  Every other code point with a distinct
Unicode upper-case form maps outside ASCII, and the code only ever compares
upper-cased text with ASCII keywords, so those mappings are modelled as the
identity. -/
def goToUpperChar (c : Char) : Char :=
  if 'a' ≤ c ∧ c ≤ 'z' then Char.ofNat (c.toNat - 32)
  else if c = 'ı' then 'I'
  else if c = 'ſ' then 'S'
  else c

/-- Go strings.ToUpper. -/
def goToUpper (s : String) : String := ⟨s.data.map goToUpperChar⟩

/-- Go strconv.Atoi: an optional sign followed by at least one decimal digit,
with the 64-bit range check ParseInt performs; none models a non-nil error. -/
def goAtoi (s : String) : Option Int :=
  let sd : Bool × List Char :=
    match s.data with
    | '+' :: rest => (false, rest)
    | '-' :: rest => (true, rest)
    | l => (false, l)
  let neg := sd.1
  let ds := sd.2
  if ds.isEmpty || !(ds.all Char.isDigit) then none
  else
    let n : Nat := ds.foldl (fun acc c => acc * 10 + (c.toNat - 48)) 0
    let v : Int := if neg then -(n : Int) else (n : Int)
    if v < -(2 ^ 63) ∨ (2 ^ 63 - 1 : Int) < v then none else some v

/-- Go strconv.ParseBool. -/
def goParseBool (str : String) : Option Bool :=
  if str = "1" ∨ str = "t" ∨ str = "T" ∨ str = "true" ∨ str = "TRUE" ∨
      str = "True" then some true
  else if str = "0" ∨ str = "f" ∨ str = "F" ∨ str = "false" ∨
      str = "FALSE" ∨ str = "False" then some false
  else none

/-- Go path.Split: splits the path right after the final slash. -/
def pathSplit (p : String) : String × String :=
  let rev := p.data.reverse
  (⟨(rev.dropWhile (· != '/')).reverse⟩, ⟨(rev.takeWhile (· != '/')).reverse⟩)

/-- Go filepath.Base on Unix: strip trailing slashes, then keep the part after
the last slash; the empty path gives "." and an all-slash path gives "/". -/
def goBase (p : String) : String :=
  if p = "" then "."
  else
    let r := p.data.reverse.dropWhile (· == '/')
    if r.isEmpty then "/"
    else ⟨(r.takeWhile (· != '/')).reverse⟩

/-! ### Go path/filepath.Match (Unix), at rune level.

The error value carries no information here (rlog discards it), so errors
are modelled as Except with a unit error. -/

/-- Go getEsc: one (possibly escaped) character of a character class. -/
def getEsc : List Char → Except Unit (Char × List Char)
  | [] => .error ()
  | c :: rest =>
    if c = '-' ∨ c = ']' then .error ()
    else if c = '\\' then
      match rest with
      | [] => .error ()
      | d :: rest2 => if rest2.isEmpty then .error () else .ok (d, rest2)
    else
      if rest.isEmpty then .error () else .ok (c, rest)

theorem getEsc_length {l : List Char} {r : Char} {rest : List Char}
    (h : getEsc l = .ok (r, rest)) : rest.length < l.length := by
  match l with
  | [] => simp [getEsc] at h
  | c :: t =>
    simp only [getEsc] at h
    split at h
    · exact absurd h (by simp)
    · split at h
      · match t with
        | [] => exact absurd h (by simp)
        | d :: t2 =>
          simp only at h
          split at h
          · exact absurd h (by simp)
          · simp only [Except.ok.injEq, Prod.mk.injEq] at h
            obtain ⟨rfl, rfl⟩ := h
            simp only [List.length_cons]
            omega
      · split at h
        · exact absurd h (by simp)
        · simp only [Except.ok.injEq, Prod.mk.injEq] at h
          obtain ⟨rfl, rfl⟩ := h
          simp

/-- The range-parsing loop inside the character-class case of Go matchChunk:
m is the running match flag, nrange counts the ranges parsed so far, and the
result is the match flag together with the chunk after the closing bracket. -/
def matchChunkRanges (r : Char) (m : Bool) (nrange : Nat) (chunk : List Char) :
    Except Unit (Bool × List Char) :=
  if chunk.head? = some ']' ∧ 0 < nrange then .ok (m, chunk.tail)
  else
    match h1 : getEsc chunk with
    | .error e => .error e
    | .ok (lo, c1) =>
      if c1.head? = some '-' then
        match h2 : getEsc c1.tail with
        | .error e => .error e
        | .ok (hi, c2) =>
          matchChunkRanges r (m || decide (lo ≤ r ∧ r ≤ hi)) (nrange + 1) c2
      else
        matchChunkRanges r (m || decide (lo ≤ r ∧ r ≤ lo)) (nrange + 1) c1
termination_by chunk.length
decreasing_by
  · have g1 := getEsc_length h1
    have g2 := getEsc_length h2
    have : c1.tail.length ≤ c1.length := by simp
    omega
  · exact getEsc_length h1

theorem matchChunkRanges_length (r : Char) (m : Bool) (n : Nat)
    (chunk : List Char) (b : Bool) (rest : List Char)
    (h : matchChunkRanges r m n chunk = .ok (b, rest)) :
    rest.length < chunk.length := by
  unfold matchChunkRanges at h
  split at h
  · next hc =>
    simp only [Except.ok.injEq, Prod.mk.injEq] at h
    obtain ⟨-, rfl⟩ := h
    match chunk, hc with
    | a :: t, _ => simp
  · split at h
    · exact absurd h (by simp)
    · next lo c1 heq =>
      have g1 := getEsc_length heq
      split at h
      · split at h
        · exact absurd h (by simp)
        · next hi c2 heq2 =>
          have g2 := getEsc_length heq2
          have g3 := matchChunkRanges_length r _ _ c2 b rest h
          have g4 : c1.tail.length ≤ c1.length := by simp
          omega
      · have g3 := matchChunkRanges_length r _ _ c1 b rest h
        omega
termination_by chunk.length
decreasing_by
  all_goals simp_all only [List.length_tail]
  all_goals omega

/-- Go matchChunk with the failed flag: matches the chunk against the start
of s, returning the rest of s and whether the match succeeded; once failed,
it keeps scanning the chunk only to diagnose malformed patterns. -/
def matchChunk : List Char → List Char → Bool → Except Unit (List Char × Bool)
  | [], s, failed => if failed then .ok ([], false) else .ok (s, true)
  | c :: chunk1, s, failed0 =>
    let failed := failed0 || s.isEmpty
    if c = '[' then
      let r := if failed then Char.ofNat 0 else s.headD (Char.ofNat 0)
      let s1 := if failed then s else s.tail
      let negated := chunk1.head? == some '^'
      match h : matchChunkRanges r false 0
          (if chunk1.head? == some '^' then chunk1.tail else chunk1) with
      | .error e => .error e
      | .ok (mtch, chunk3) =>
        matchChunk chunk3 s1 (failed || (mtch == negated))
    else if c = '?' then
      if failed then matchChunk chunk1 s failed
      else matchChunk chunk1 s.tail (failed || (s.headD (Char.ofNat 0) == '/'))
    else if c = '\\' then
      match chunk1 with
      | [] => .error ()
      | d :: chunk2 =>
        if failed then matchChunk chunk2 s failed
        else matchChunk chunk2 s.tail
          (failed || !(d == s.headD (Char.ofNat 0)))
    else
      if failed then matchChunk chunk1 s failed
      else matchChunk chunk1 s.tail (failed || !(c == s.headD (Char.ofNat 0)))
termination_by chunk _ _ => chunk.length
decreasing_by
  · have g := matchChunkRanges_length _ _ _ _ _ _ h
    have g2 : (if _h : (chunk1.head? == some '^') = true then chunk1.tail
        else chunk1).length ≤ chunk1.length := by split <;> simp
    simp only [List.length_cons]
    omega
  all_goals simp_all only [List.length_cons]
  all_goals omega

/-- The chunk-scanning loop of Go scanChunk: collects characters up to the
next star that is outside a character class, keeping escaped pairs together. -/
def scanChunkBody : List Char → Bool → List Char × List Char
  | [], _ => ([], [])
  | c :: rest, inrange =>
    if c = '\\' then
      match rest with
      | [] => ([c], [])
      | d :: rest2 =>
        let p := scanChunkBody rest2 inrange
        (c :: d :: p.1, p.2)
    else if c = '[' then
      let p := scanChunkBody rest true
      (c :: p.1, p.2)
    else if c = ']' then
      let p := scanChunkBody rest false
      (c :: p.1, p.2)
    else if c = '*' then
      if inrange then
        let p := scanChunkBody rest inrange
        (c :: p.1, p.2)
      else ([], c :: rest)
    else
      let p := scanChunkBody rest inrange
      (c :: p.1, p.2)

/-- Go scanChunk: strips leading stars (reporting whether there was one) and
returns the next chunk of the pattern together with the remaining pattern. -/
def scanChunk (p : List Char) : Bool × List Char × List Char :=
  let rest := p.dropWhile (· == '*')
  let cr := scanChunkBody rest false
  (!(p.takeWhile (· == '*')).isEmpty, cr.1, cr.2)

theorem scanChunkBody_append (l : List Char) (b : Bool) :
    (scanChunkBody l b).1 ++ (scanChunkBody l b).2 = l := by
  induction l, b using scanChunkBody.induct
  all_goals rw [scanChunkBody.eq_def]
  all_goals simp_all

theorem dropWhile_length_le (q : Char → Bool) (l : List Char) :
    (l.dropWhile q).length ≤ l.length := by
  induction l with
  | nil => simp
  | cons a t ih =>
    rw [List.dropWhile_cons]
    split
    · simp only [List.length_cons]
      omega
    · simp

theorem scanChunkBody_progress (c : Char) (t : List Char) (b : Bool)
    (hc : ¬c = '*') : (scanChunkBody (c :: t) b).1 ≠ [] := by
  by_cases h1 : c = '\\'
  · subst h1
    cases t <;> (rw [scanChunkBody.eq_def]; simp)
  · by_cases h2 : c = '['
    · subst h2
      rw [scanChunkBody.eq_def]
      simp
    · by_cases h3 : c = ']'
      · subst h3
        rw [scanChunkBody.eq_def]
        simp
      · rw [scanChunkBody.eq_def]
        simp [h1, h2, h3, hc]

theorem scanChunk_length {p : List Char} (hp : p ≠ []) :
    (scanChunk p).2.2.length < p.length := by
  match p, hp with
  | c :: t, _ =>
    by_cases hc : c = '*'
    · subst hc
      have hdw : ('*' :: t).dropWhile (· == '*') = t.dropWhile (· == '*') := by
        rw [List.dropWhile_cons]
        simp
      have h1 : (scanChunkBody (t.dropWhile (· == '*')) false).2.length ≤
          (t.dropWhile (· == '*')).length := by
        conv_rhs => rw [← scanChunkBody_append (t.dropWhile (· == '*')) false]
        simp
      have h2 := dropWhile_length_le (· == '*') t
      show (scanChunkBody (('*' :: t).dropWhile (· == '*')) false).2.length <
        ('*' :: t).length
      rw [hdw]
      simp only [List.length_cons]
      omega
    · have hdw : (c :: t).dropWhile (· == '*') = c :: t := by
        rw [List.dropWhile_cons]
        simp [hc]
      have hne := scanChunkBody_progress c t false hc
      have happ := scanChunkBody_append (c :: t) false
      have hlen : (scanChunkBody (c :: t) false).1.length +
          (scanChunkBody (c :: t) false).2.length = t.length + 1 := by
        rw [← List.length_append, happ]
        simp
      have hpos : 1 ≤ (scanChunkBody (c :: t) false).1.length := by
        cases hx : (scanChunkBody (c :: t) false).1 with
        | nil => exact absurd hx hne
        | cons _ _ => simp
      show (scanChunkBody ((c :: t).dropWhile (· == '*')) false).2.length <
        (c :: t).length
      rw [hdw]
      simp only [List.length_cons]
      omega

/-- The backtracking loop Go Match runs after a star: tries to match the
chunk at every later position of the name, not skipping a slash.  Returns
the remaining name on success, none when the name is exhausted. -/
def starLoop (chunk rest : List Char) : List Char → Except Unit (Option (List Char))
  | [] => .ok none
  | c :: name1 =>
    if c = '/' then .ok none
    else
      match matchChunk chunk name1 false with
      | .error e => .error e
      | .ok (t, ok) =>
        if ok then
          if rest = [] ∧ t ≠ [] then starLoop chunk rest name1
          else .ok (some t)
        else starLoop chunk rest name1

/-- The syntactic validity scan Go Match performs on the rest of the pattern
before returning a false match. -/
def checkPatternTail (p : List Char) : Except Unit Bool :=
  match hp : p with
  | [] => .ok false
  | _ :: _ =>
    match matchChunk (scanChunk p).2.1 [] false with
    | .error e => .error e
    | .ok _ => checkPatternTail (scanChunk p).2.2
termination_by p.length
decreasing_by
  rw [hp]
  exact scanChunk_length (List.cons_ne_nil _ _)

/-- Go filepath.Match (Unix separator), at rune level, on rune lists. -/
def goMatchL (pattern name : List Char) : Except Unit Bool :=
  match hp : pattern with
  | [] => .ok name.isEmpty
  | _ :: _ =>
    let star := (scanChunk pattern).1
    let chunk := (scanChunk pattern).2.1
    let rest := (scanChunk pattern).2.2
    if star ∧ chunk = [] then .ok !(name.contains '/')
    else
      match matchChunk chunk name false with
      | .error e => .error e
      | .ok (t, ok) =>
        if ok ∧ (t.isEmpty ∨ rest ≠ []) then goMatchL rest t
        else if star then
          match starLoop chunk rest name with
          | .error e => .error e
          | .ok (some t2) => goMatchL rest t2
          | .ok none => checkPatternTail rest
        else checkPatternTail rest
termination_by pattern.length
decreasing_by
  all_goals rw [hp]
  all_goals exact scanChunk_length (List.cons_ne_nil _ _)

/-- Go filepath.Match on strings. -/
def goMatch (pattern name : String) : Except Unit Bool :=
  goMatchL pattern.data name.data

/-- The two-valued assignment in rlog: match, _ = filepath.Match(...).
Go Match returns a false match whenever it returns an error, so discarding
the error leaves false. -/
def goMatchBool (pattern name : String) : Bool :=
  match goMatch pattern name with
  | .ok b => b
  | .error _ => false

/-! ### rlog filters (rlog.go lines 69-243) -/

/-- rlog.go filter: a filename pattern and a level to match against. -/
structure filter where
  Pattern : String
  Level : Int
deriving DecidableEq, Repr

/-- rlog.go filterSpec: a list of filters. -/
structure filterSpec where
  filters : List filter
deriving DecidableEq, Repr

/-- rlog.go filter.match (lines 231-243): whether the filename matched the
pattern, and whether the message should be logged (level at or below the
filter level).  An empty pattern matches every filename; otherwise the
pattern is glob-matched against filepath.Base of the filename, the error
being discarded. -/
def matchFilter (f : filter) (filename : String) (level : Int) : Bool × Bool :=
  let mtch := if f.Pattern ≠ "" then goMatchBool f.Pattern (goBase filename)
              else true
  if mtch then (true, decide (level ≤ f.Level)) else (false, false)

/-- The loop of filterSpec.matchfilters: the shouldLog value of the first
filter whose pattern matches. -/
def matchLoop (filename : String) (level : Int) : List filter → Bool
  | [] => false
  | f :: rest =>
    if (matchFilter f filename level).1 then (matchFilter f filename level).2
    else matchLoop filename level rest

/-- rlog.go filterSpec.matchfilters (lines 211-225). -/
def matchfilters (spec : filterSpec) (filename : String) (level : Int) : Bool :=
  if spec.filters.isEmpty then false
  else matchLoop filename level spec.filters

/-! ### rlog filterSpec.fromString (rlog.go lines 140-207) -/

/-- The level parsing of one token of the spec string: numeric on the trace
axis, a known level name (but not TRACE) on the log axis; none when the
token is skipped. -/
def tokenLevel (isTraceLevels : Bool) (matchToken levelToken : String) :
    Option (String × Int) :=
  if isTraceLevels then
    match goAtoi levelToken with
    | none => none
    | some lvl => some (matchToken, lvl)
  else
    match levelNumbers (goToUpper levelToken) with
    | none => none
    | some lvl => if lvl = levelTrace then none else some (matchToken, lvl)

/-- One token of the spec string, split on "=": one part is a global level,
two parts are pattern and level, anything longer is skipped. -/
def tokenFilter (isTraceLevels : Bool) (f : String) : Option (String × Int) :=
  match goSplit f '=' with
  | [levelToken] => tokenLevel isTraceLevels "" levelToken
  | [matchToken, levelToken] => tokenLevel isTraceLevels matchToken levelToken
  | _ => none

/-- The loop body of fromString: a valid global token overwrites the pending
global level, a valid patterned token is appended to the filters. -/
def fromStringStep (isTraceLevels : Bool) (st : Int × List filter) (f : String) :
    Int × List filter :=
  match tokenFilter isTraceLevels f with
  | none => st
  | some (matchToken, lvl) =>
    if matchToken = "" then (lvl, st.2)
    else (st.1, st.2 ++ [⟨matchToken, lvl⟩])

/-- rlog.go filterSpec.fromString (lines 140-207), returning the filter list
built from the spec string: the comma-separated tokens are folded over
fromStringStep, and the pending global level is appended last - except on
the trace axis when it equals the disabled sentinel. -/
def fromString (s : String) (isTraceLevels : Bool) (globalLevelDefault : Int) :
    List filter :=
  let st := (goSplit s ',').foldl (fromStringStep isTraceLevels)
    (globalLevelDefault, [])
  if ¬isTraceLevels ∨ st.1 ≠ noTraceOutput then st.2 ++ [⟨"", st.1⟩] else st.2

/-- The fast-path guard of Trace and Tracef (rlog.go lines 527, 537): trace
processing is entered only when the trace filter list is non-empty. -/
def traceEnabled (spec : filterSpec) : Bool := spec.filters.length > 0

/-! ### rlog configuration merging (rlog.go lines 90-323) -/

/-- rlog.go rlogEnvConfig: the raw configuration, all fields strings. -/
structure rlogEnvConfig where
  logLevel : String
  traceLevel : String
  logTimeFormat : String
  logFile : String
  confFile : String
  logStream : String
  logNoTime : String
  showCallerInfo : String
deriving DecidableEq, Repr

/-- rlog.go updateIfNeeded (lines 249-255). -/
def updateIfNeeded (oldVal newVal : String) (priority : Bool) : String :=
  if priority ∨ oldVal = "" then newVal else oldVal

/-- The switch statement of updateConfigFromFile (lines 298-321): dispatches
a parsed name/value pair onto the config fields.  RLOG_CONF_FILE and unknown
names only produce a diagnostic, leaving the config unchanged. -/
def applySetting (config : rlogEnvConfig) (name val : String) (priority : Bool) :
    rlogEnvConfig :=
  if name = "RLOG_LOG_LEVEL" then
    { config with logLevel := updateIfNeeded config.logLevel val priority }
  else if name = "RLOG_TRACE_LEVEL" then
    { config with traceLevel := updateIfNeeded config.traceLevel val priority }
  else if name = "RLOG_TIME_FORMAT" then
    { config with logTimeFormat := updateIfNeeded config.logTimeFormat val priority }
  else if name = "RLOG_LOG_FILE" then
    { config with logFile := updateIfNeeded config.logFile val priority }
  else if name = "RLOG_CONF_FILE" then config
  else if name = "RLOG_LOG_STREAM" then
    { config with logStream := updateIfNeeded config.logStream (goToUpper val) priority }
  else if name = "RLOG_LOG_NOTIME" then
    { config with logNoTime := updateIfNeeded config.logNoTime val priority }
  else if name = "RLOG_CALLER_INFO" then
    { config with showCallerInfo := updateIfNeeded config.showCallerInfo val priority }
  else config

/-- One iteration of the scanner loop of updateConfigFromFile (lines
271-322): trim the line, skip blank lines, split on the first "=" (skipping
lines without one), trim name and value, read a leading priority mark, and
dispatch.  The none result models the runtime panic the Go code hits at
name[0] when the trimmed name is empty (a line whose text before the first
"=" is all white space). -/
def processConfigLine (config : rlogEnvConfig) (rawLine : String) :
    Option rlogEnvConfig :=
  let line := goTrimSpace rawLine
  if line = "" then some config
  else
    match splitN2 '=' line.data with
    | none => some config
    | some (t0, t1) =>
      let name := goTrimSpace ⟨t0⟩
      let val := goTrimSpace ⟨t1⟩
      match name.data with
      | [] => none
      | c :: restName =>
        if c = '!' then some (applySetting config ⟨restName⟩ val true)
        else some (applySetting config name val false)

/-- The whole scanner loop of updateConfigFromFile over the lines of the
config file; none models the loop dying in a panic. -/
def processConfigLines (config : rlogEnvConfig) : List String → Option rlogEnvConfig
  | [] => some config
  | l :: ls =>
    match processConfigLine config l with
    | none => none
    | some c2 => processConfigLines c2 ls

/-! ### rlog isTrueBoolString (rlog.go lines 444-453) -/

/-- rlog.go isTrueBoolString: upper-cases the string, accepts Y and YES
directly, and otherwise whatever strconv.ParseBool accepts as true. -/
def isTrueBoolString (str : String) : Bool :=
  let s := goToUpper str
  if s = "Y" ∨ s = "YES" then true
  else
    match goParseBool s with
    | some true => true
    | _ => false

/-! ### rlog basicLog dispatch (rlog.go lines 459-492) -/

/-- The caller-path reduction in basicLog (lines 470-476): path.Split the
full file path, then path.Split the directory again (after dropping its
trailing slash) to get the immediate parent directory, and join as
module/file. -/
def moduleAndFileName (fullFilePath : String) : String :=
  let dirPath := (pathSplit fullFilePath).1
  let fileName := (pathSplit fullFilePath).2
  if dirPath ≠ "" then
    let moduleName := (pathSplit ⟨dirPath.data.dropLast⟩).2
    moduleName ++ "/" ++ fileName
  else
    "" ++ "/" ++ fileName

/-- The filter decision basicLog makes (lines 479-489) for a caller path and
a level, against the filterSpec the trace/log branch selects. -/
def basicLogDecision (spec : filterSpec) (fullFilePath : String) (level : Int) :
    Bool :=
  matchfilters spec (moduleAndFileName fullFilePath) level

/-! ### Statement-side definitions taken from the specification text -/

/-- Spec 4.3: the patterned rules a spec string declares, in declaration
order: the valid tokens whose pattern part is non-empty. -/
def patternedRules (s : String) (isTraceLevels : Bool) : List filter :=
  (goSplit s ',').filterMap fun f =>
    match tokenFilter isTraceLevels f with
    | some (p, l) => if p = "" then none else some ⟨p, l⟩
    | none => none

/-- Spec 4.3: the retained global level of a spec string - the last valid
pattern-less token overwrites earlier ones, the default standing when there
is none. -/
def resolvedGlobal (s : String) (isTraceLevels : Bool) (dflt : Int) : Int :=
  (goSplit s ',').foldl
    (fun g f =>
      match tokenFilter isTraceLevels f with
      | some (p, l) => if p = "" then l else g
      | none => g)
    dflt

/-- Spec 4.3 and claim C8: a token the parser skips - more than one equals
sign, or an unparsable trace level, or an unknown or TRACE log level name. -/
def skippedToken (isTraceLevels : Bool) (f : String) : Bool :=
  match goSplit f '=' with
  | [lt] => levelTokenInvalid isTraceLevels lt
  | [_, lt] => levelTokenInvalid isTraceLevels lt
  | _ => true
where
  levelTokenInvalid (isTraceLevels : Bool) (lt : String) : Bool :=
    if isTraceLevels then (goAtoi lt).isNone
    else (levelNumbers (goToUpper lt)).isNone || (goToUpper lt == "TRACE")

/-! ### Helper lemmas -/

theorem matchLoop_eq_find (filename : String) (level : Int) (fs : List filter) :
    matchLoop filename level fs =
      ((fs.find? fun f => (matchFilter f filename level).1).map
        fun f => (matchFilter f filename level).2).getD false := by
  induction fs with
  | nil => rfl
  | cons f rest ih =>
    rw [matchLoop, List.find?_cons]
    split
    · next h => simp [h]
    · next h => simp only [Bool.not_eq_true] at h; simp [h, ih]

theorem foldl_fromString_decomp (isTraceLevels : Bool) (fields : List String)
    (g : Int) (fs : List filter) :
    fields.foldl (fromStringStep isTraceLevels) (g, fs) =
      (fields.foldl
        (fun a f =>
          match tokenFilter isTraceLevels f with
          | some (p, l) => if p = "" then l else a
          | none => a) g,
       fs ++ fields.filterMap fun f =>
        match tokenFilter isTraceLevels f with
        | some (p, l) => if p = "" then none else some ⟨p, l⟩
        | none => none) := by
  induction fields generalizing g fs with
  | nil => simp
  | cons f fields ih =>
    simp only [List.foldl_cons, List.filterMap_cons, fromStringStep]
    cases htf : tokenFilter isTraceLevels f with
    | none => simpa using ih g fs
    | some pl =>
      obtain ⟨p, l⟩ := pl
      by_cases hp : p = ""
      · simp only [hp, if_pos rfl, if_true]
        simpa using ih l fs
      · simp only [if_neg hp]
        rw [ih]
        simp

/-- fromString decomposed the way the spec describes it: patterned rules in
declaration order, then the resolved global rule, the latter omitted on the
trace axis when it resolves to the disabled sentinel. -/
theorem fromString_decomp_aux (b : Bool) (G : Int) (FM : List filter) :
    (if ¬b ∨ G ≠ noTraceOutput then FM ++ [⟨"", G⟩] else FM) =
      FM ++ (if b ∧ G = noTraceOutput then [] else [⟨"", G⟩]) := by
  by_cases hb : b = true <;> by_cases hg : G = noTraceOutput <;> simp [hb, hg]

/-- fromString decomposed the way the spec describes it: patterned rules in
declaration order, then the resolved global rule, the latter omitted on the
trace axis when it resolves to the disabled sentinel. -/
theorem fromString_decomp (s : String) (isTraceLevels : Bool) (dflt : Int) :
    fromString s isTraceLevels dflt =
      patternedRules s isTraceLevels ++
        (if isTraceLevels ∧ resolvedGlobal s isTraceLevels dflt = noTraceOutput
         then []
         else [⟨"", resolvedGlobal s isTraceLevels dflt⟩]) := by
  unfold fromString patternedRules resolvedGlobal
  rw [foldl_fromString_decomp]
  simp only [List.nil_append]
  apply fromString_decomp_aux

theorem takeWhile_append_stop {α : Type} (q : α → Bool) (l1 : List α) (c : α)
    (l2 : List α) (h1 : ∀ x ∈ l1, q x = true) (h2 : q c = false) :
    (l1 ++ c :: l2).takeWhile q = l1 := by
  induction l1 with
  | nil => simp [List.takeWhile_cons, h2]
  | cons a t ih =>
    simp only [List.cons_append, List.takeWhile_cons, h1 a (by simp), if_true]
    rw [ih fun x hx => h1 x (by simp [hx])]

theorem dropWhile_head_stop {α : Type} (q : α → Bool) (l : List α)
    (hne : l ≠ []) (h : ∀ a, l.head? = some a → q a = false) :
    l.dropWhile q = l := by
  cases l with
  | nil => exact absurd rfl hne
  | cons a t => rw [List.dropWhile_cons, h a rfl]; simp

/-- filepath.Base of a string of the form module/file, where the file part is
non-empty and has no slash, is the file part. -/
theorem goBase_append (m : String) (f : String) (hne : f.data ≠ [])
    (hns : ∀ c ∈ f.data, c ≠ '/') :
    goBase (m ++ "/" ++ f) = f := by
  have hdata : (m ++ "/" ++ f).data = m.data ++ '/' :: f.data := by
    show (m.data ++ ['/']) ++ f.data = m.data ++ '/' :: f.data
    simp
  unfold goBase
  rw [if_neg]
  · have hrev : (m ++ "/" ++ f).data.reverse =
        f.data.reverse ++ '/' :: m.data.reverse := by
      rw [hdata]
      simp
    have hdrop : (m ++ "/" ++ f).data.reverse.dropWhile (· == '/') =
        f.data.reverse ++ '/' :: m.data.reverse := by
      rw [hrev]
      apply dropWhile_head_stop
      · simp
      · intro a ha
        cases hfr : f.data.reverse with
        | nil => exact absurd (List.reverse_eq_nil_iff.mp hfr) hne
        | cons x xs =>
          rw [hfr] at ha
          simp only [List.cons_append, List.head?_cons, Option.some.injEq] at ha
          have hx : x ∈ f.data := by
            have hm : x ∈ f.data.reverse := by
              rw [hfr]
              exact List.mem_cons_self x xs
            simpa using hm
          rw [← ha]
          simpa using hns x hx
    simp only [hdrop]
    rw [if_neg (by simp)]
    have htake : (f.data.reverse ++ '/' :: m.data.reverse).takeWhile (· != '/') =
        f.data.reverse := by
      apply takeWhile_append_stop
      · intro x hx
        have : x ∈ f.data := by simpa using hx
        simpa using hns x this
      · simp
    rw [htake]
    apply String.ext
    simp
  · intro hcon
    have : (m ++ "/" ++ f).data = [] := by rw [hcon]
    rw [hdata] at this
    simp at this

/-- The file component path.Split returns contains no slash. -/
theorem pathSplit_snd_no_slash (p : String) :
    ∀ c ∈ (pathSplit p).2.data, c ≠ '/' := by
  intro c hc
  have : c ∈ p.data.reverse.takeWhile (· != '/') := by
    simpa [pathSplit] using hc
  have := List.mem_takeWhile_imp this
  simpa using this

/-- The module component of the caller-path reduction. -/
def moduleNameOf (p : String) : String :=
  if (pathSplit p).1 ≠ "" then (pathSplit ⟨(pathSplit p).1.data.dropLast⟩).2
  else ""

theorem moduleAndFileName_eq (p : String) :
    moduleAndFileName p = moduleNameOf p ++ "/" ++ (pathSplit p).2 := by
  unfold moduleAndFileName moduleNameOf
  split <;> simp_all

/-- The name basicLog hands to the filters has the file component of the
caller path as its filepath.Base, whenever that component is non-empty. -/
theorem goBase_moduleAndFileName (p : String) (h : (pathSplit p).2 ≠ "") :
    goBase (moduleAndFileName p) = (pathSplit p).2 := by
  rw [moduleAndFileName_eq]
  apply goBase_append
  · intro hcon
    exact h (String.ext hcon)
  · exact pathSplit_snd_no_slash p

theorem matchFilter_congr (f : filter) (n1 n2 : String) (lvl : Int)
    (h : goBase n1 = goBase n2) :
    matchFilter f n1 lvl = matchFilter f n2 lvl := by
  unfold matchFilter
  rw [h]

theorem matchfilters_congr (spec : filterSpec) (n1 n2 : String) (lvl : Int)
    (h : goBase n1 = goBase n2) :
    matchfilters spec n1 lvl = matchfilters spec n2 lvl := by
  unfold matchfilters
  split
  · rfl
  · induction spec.filters with
    | nil => rfl
    | cons f rest ih =>
      rw [matchLoop, matchLoop, matchFilter_congr f n1 n2 lvl h, ih]

theorem char_ofNat_toNat (n : Nat) (h : n < 55296) : (Char.ofNat n).toNat = n := by
  unfold Char.ofNat
  rw [dif_pos (Or.inl h)]
  rfl

/-- goToUpperChar never produces an ASCII lower-case letter. -/
theorem goToUpperChar_not_lower (c d : Char) (hd1 : 'a' ≤ d) (hd2 : d ≤ 'z') :
    goToUpperChar c ≠ d := by
  have hdn1 : 97 ≤ d.toNat := by simpa [Char.le_def] using hd1
  have hdn2 : d.toNat ≤ 122 := by simpa [Char.le_def] using hd2
  unfold goToUpperChar
  split
  · next h =>
    have hc1 : 97 ≤ c.toNat := by simpa [Char.le_def] using h.1
    have hc2 : c.toNat ≤ 122 := by simpa [Char.le_def] using h.2
    intro hcon
    have : (Char.ofNat (c.toNat - 32)).toNat = d.toNat := by rw [hcon]
    rw [char_ofNat_toNat (c.toNat - 32) (by omega)] at this
    omega
  · split
    · intro hcon
      rw [← hcon] at hdn1
      exact absurd hdn1 (by decide)
    · split
      · intro hcon
        rw [← hcon] at hdn1
        exact absurd hdn1 (by decide)
      · next h _ _ =>
        intro hcon
        subst hcon
        exact h ⟨by simpa [Char.le_def] using hdn1, by simpa [Char.le_def] using hdn2⟩

/-- No ASCII lower-case letter occurs in the output of goToUpper. -/
theorem goToUpper_no_lower (s : String) (d : Char) (hd1 : 'a' ≤ d)
    (hd2 : d ≤ 'z') : d ∉ (goToUpper s).data := by
  intro hmem
  simp only [goToUpper, List.mem_map] at hmem
  obtain ⟨c, -, hc⟩ := hmem
  exact goToUpperChar_not_lower c d hd1 hd2 hc

theorem goToUpper_ne_t (s : String) : goToUpper s ≠ "t" := by
  intro h
  have : 't' ∈ (goToUpper s).data := by rw [h]; simp [String.data]
  exact goToUpper_no_lower s 't' (by decide) (by decide) this

theorem goToUpper_ne_true (s : String) : goToUpper s ≠ "true" := by
  intro h
  have : 't' ∈ (goToUpper s).data := by rw [h]; simp [String.data]
  exact goToUpper_no_lower s 't' (by decide) (by decide) this

theorem goToUpper_ne_True (s : String) : goToUpper s ≠ "True" := by
  intro h
  have : 'r' ∈ (goToUpper s).data := by rw [h]; simp [String.data]
  exact goToUpper_no_lower s 'r' (by decide) (by decide) this

theorem tokenLevel_of_invalid (axis : Bool) (mt lt : String)
    (h : skippedToken.levelTokenInvalid axis lt = true) :
    tokenLevel axis mt lt = none := by
  unfold skippedToken.levelTokenInvalid at h
  unfold tokenLevel
  split
  · next haxis =>
    rw [if_pos haxis] at h
    rw [Option.isNone_iff_eq_none] at h
    rw [h]
  · next haxis =>
    rw [if_neg haxis] at h
    simp only [Bool.or_eq_true, beq_iff_eq] at h
    cases h with
    | inl h1 =>
      rw [Option.isNone_iff_eq_none] at h1
      rw [h1]
    | inr h2 =>
      rw [h2]
      simp [levelNumbers, levelTrace]

theorem tokenFilter_of_skipped (axis : Bool) (f : String)
    (h : skippedToken axis f = true) : tokenFilter axis f = none := by
  unfold skippedToken at h
  unfold tokenFilter
  match hsp : goSplit f '=' with
  | [] => rfl
  | [lt] =>
    rw [hsp] at h
    exact tokenLevel_of_invalid axis "" lt h
  | [mt, lt] =>
    rw [hsp] at h
    exact tokenLevel_of_invalid axis mt lt h
  | a :: b :: c :: rest => rfl

theorem fromStringStep_of_skipped (axis : Bool) (f : String)
    (h : skippedToken axis f = true) (st : Int × List filter) :
    fromStringStep axis st f = st := by
  unfold fromStringStep
  rw [tokenFilter_of_skipped axis f h]

theorem foldl_fromString_skip (axis : Bool) (fields : List String)
    (st : Int × List filter) :
    fields.foldl (fromStringStep axis) st =
      (fields.filter fun f => !skippedToken axis f).foldl
        (fromStringStep axis) st := by
  induction fields generalizing st with
  | nil => rfl
  | cons f fields ih =>
    by_cases hf : skippedToken axis f = true
    · rw [List.foldl_cons, fromStringStep_of_skipped axis f hf,
        List.filter_cons_of_neg (by simp [hf]), ih]
    · rw [List.foldl_cons,
        List.filter_cons_of_pos (by simp [Bool.not_eq_true] at hf; simp [hf]),
        List.foldl_cons, ih]

theorem matchChunkRanges_nil (r : Char) (m : Bool) (n : Nat) :
    matchChunkRanges r m n [] = .error () := by
  unfold matchChunkRanges
  simp [getEsc]

theorem matchChunk_bracket (s : List Char) : matchChunk ['['] s false = .error () := by
  rw [matchChunk.eq_def]
  simp
  split
  · rfl
  · rename_i h
    rw [matchChunkRanges_nil] at h
    simp at h

theorem goMatchL_bracket (l : List Char) : goMatchL ['['] l = .error () := by
  rw [goMatchL.eq_def]
  have hscan : scanChunk ['['] = (false, ['['], []) := by decide
  simp [hscan, matchChunk_bracket]

/-! ### Setting fields (for the config-merge claims) -/

/-- The seven mergeable settings of updateConfigFromFile (RLOG_CONF_FILE is
recognized but never merged). -/
inductive SettingField where
  | logLevel | traceLevel | logTimeFormat | logFile | logStream | logNoTime
  | showCallerInfo
deriving DecidableEq, Repr

/-- The config-file name of each mergeable setting. -/
def settingName : SettingField → String
  | .logLevel => "RLOG_LOG_LEVEL"
  | .traceLevel => "RLOG_TRACE_LEVEL"
  | .logTimeFormat => "RLOG_TIME_FORMAT"
  | .logFile => "RLOG_LOG_FILE"
  | .logStream => "RLOG_LOG_STREAM"
  | .logNoTime => "RLOG_LOG_NOTIME"
  | .showCallerInfo => "RLOG_CALLER_INFO"

/-- Read one setting field of the config. -/
def getSetting : SettingField → rlogEnvConfig → String
  | .logLevel, c => c.logLevel
  | .traceLevel, c => c.traceLevel
  | .logTimeFormat, c => c.logTimeFormat
  | .logFile, c => c.logFile
  | .logStream, c => c.logStream
  | .logNoTime, c => c.logNoTime
  | .showCallerInfo, c => c.showCallerInfo

/-- The value a config-file line contributes for a field: the raw value,
except that the log-stream value is upper-cased on read (rlog.go line 311). -/
def fileValueOf : SettingField → String → String
  | .logStream, v => goToUpper v
  | _, v => v

/-- The all-empty configuration (every environment variable unset). -/
def emptyEnvConfig : rlogEnvConfig := ⟨"", "", "", "", "", "", "", ""⟩

/-! ### The claims -/

/-- C1: for every filter, an empty pattern always reports a pattern match;
a non-empty pattern reports exactly the shell-glob match of the pattern
against the base name of the file name (so directory components cannot
affect the result); when the pattern matched, shouldLog holds exactly when
the level is at most the filter threshold, and when it did not match,
shouldLog is false. -/
theorem C1_filter_match (f : filter) (name : String) (lvl : Int) :
    (f.Pattern = "" → matchFilter f name lvl = (true, decide (lvl ≤ f.Level)))
    ∧ (f.Pattern ≠ "" →
        (matchFilter f name lvl).1 = goMatchBool f.Pattern (goBase name))
    ∧ ((matchFilter f name lvl).1 = true →
        ((matchFilter f name lvl).2 = true ↔ lvl ≤ f.Level))
    ∧ ((matchFilter f name lvl).1 = false → (matchFilter f name lvl).2 = false)
    ∧ (∀ name2, goBase name = goBase name2 →
        matchFilter f name lvl = matchFilter f name2 lvl) := by
  refine ⟨?_, ?_, ?_, ?_, fun name2 h => matchFilter_congr f name name2 lvl h⟩
  · intro h
    simp [matchFilter, h]
  · intro h
    cases hgm : goMatchBool f.Pattern (goBase name) <;>
      simp [matchFilter, h, hgm]
  all_goals
    unfold matchFilter
    by_cases hp : f.Pattern ≠ ""
    · rw [if_pos hp]
      cases hgm : goMatchBool f.Pattern (goBase name) <;> simp [hgm]
    · rw [if_neg hp]
      simp

theorem C1_filter_match_witness :
    (("a.go" : String) ≠ "")
    ∧ (matchFilter ⟨"a.go", levelErr⟩ "pkg/a.go" levelWarn).1 =
        goMatchBool "a.go" (goBase "pkg/a.go")
    ∧ matchFilter ⟨"a.go", levelErr⟩ "pkg/a.go" levelWarn =
        matchFilter ⟨"a.go", levelErr⟩ "lib/a.go" levelWarn :=
  ⟨by decide,
   (C1_filter_match ⟨"a.go", levelErr⟩ "pkg/a.go" levelWarn).2.1 (by decide),
   (C1_filter_match ⟨"a.go", levelErr⟩ "pkg/a.go" levelWarn).2.2.2.2
     "lib/a.go" (by decide)⟩

/-- C2: matchfilters of an empty rule list is false; in general it returns
the shouldLog of the first rule in sequence order whose pattern matched, and
false when none matched; the rule list from "a.go=ERROR" before the global
WARN rule rejects the query (a.go, WARN) even though the global rule alone
would accept it. -/
theorem C2_matchfilters_first_match (spec : filterSpec) (filename : String)
    (lvl : Int) :
    matchfilters ⟨[]⟩ filename lvl = false
    ∧ matchfilters spec filename lvl =
        ((spec.filters.find? fun f => (matchFilter f filename lvl).1).map
          fun f => (matchFilter f filename lvl).2).getD false
    ∧ matchfilters ⟨[⟨"a.go", levelErr⟩, ⟨"", levelWarn⟩]⟩ "a.go" levelWarn
        = false
    ∧ matchfilters ⟨[⟨"", levelWarn⟩]⟩ "a.go" levelWarn = true := by
  have hbase : goBase "a.go" = "a.go" := by decide
  have hglob : goMatchBool "a.go" "a.go" = true := by
    simp [goMatchBool, goMatch, goMatchL, scanChunk, scanChunkBody, matchChunk,
      matchChunkRanges, getEsc, starLoop, checkPatternTail]
  refine ⟨rfl, ?_, ?_, by decide⟩
  · unfold matchfilters
    split
    · next h =>
      rw [List.isEmpty_iff] at h
      rw [h]
      rfl
    · exact matchLoop_eq_find filename lvl spec.filters
  · simp [matchfilters, matchLoop, matchFilter, hbase, hglob, levelErr,
      levelWarn]

/-- C3: fromString keeps at most one pattern-less rule, whose level is the
last valid pattern-less token (or the default), appended after all patterned
rules, which keep declaration order; parsing "WARN,a.go=DEBUG" on the log
axis puts the a.go=DEBUG rule before the global WARN rule. -/
theorem C3_fromString_global_last (s : String) (axis : Bool) (dflt : Int) :
    fromString s axis dflt =
      patternedRules s axis ++
        (if axis ∧ resolvedGlobal s axis dflt = noTraceOutput then []
         else [⟨"", resolvedGlobal s axis dflt⟩])
    ∧ (∀ f ∈ patternedRules s axis, f.Pattern ≠ "")
    ∧ List.countP (fun f => f.Pattern == "") (fromString s axis dflt) ≤ 1
    ∧ fromString "WARN,a.go=DEBUG" false levelInfo =
        [⟨"a.go", levelDebug⟩, ⟨"", levelWarn⟩] := by
  have hpat : ∀ f ∈ patternedRules s axis, f.Pattern ≠ "" := by
    intro f hf
    unfold patternedRules at hf
    rw [List.mem_filterMap] at hf
    obtain ⟨tok, -, htok⟩ := hf
    revert htok
    cases tokenFilter axis tok with
    | none => simp
    | some pl =>
      obtain ⟨p, l⟩ := pl
      simp only
      split
      · simp
      · next hp =>
        intro he
        simp only [Option.some.injEq] at he
        rw [← he]
        exact hp
  refine ⟨fromString_decomp s axis dflt, hpat, ?_, by decide⟩
  rw [fromString_decomp, List.countP_append]
  have h0 : List.countP (fun f => f.Pattern == "") (patternedRules s axis) = 0 := by
    rw [List.countP_eq_zero]
    intro f hf
    simpa using hpat f hf
  rw [h0]
  split <;> simp

theorem C3_fromString_global_last_witness :
    fromString "WARN,a.go=DEBUG" false levelInfo =
        [⟨"a.go", levelDebug⟩, ⟨"", levelWarn⟩]
    ∧ (⟨"a.go", levelDebug⟩ : filter).Pattern ≠ "" := by
  have h := C3_fromString_global_last "WARN,a.go=DEBUG" false levelInfo
  exact ⟨h.2.2.2, h.2.1 ⟨"a.go", levelDebug⟩ (by decide)⟩

/-- C4: on the trace axis, when the resolved global threshold equals the
disabled sentinel and no patterned rules were declared, fromString yields an
empty rule list, the Trace fast-path guard is off, and every query is
rejected. -/
theorem C4_trace_disabled_empty (s : String) (dflt : Int)
    (hg : resolvedGlobal s true dflt = noTraceOutput)
    (hp : patternedRules s true = []) :
    fromString s true dflt = []
    ∧ traceEnabled ⟨fromString s true dflt⟩ = false
    ∧ ∀ filename lvl, matchfilters ⟨fromString s true dflt⟩ filename lvl
        = false := by
  have hd0 := fromString_decomp s true dflt
  rw [hg, hp] at hd0
  have hd : fromString s true dflt = [] := by
    rw [hd0]
    simp
  refine ⟨hd, ?_, ?_⟩
  · rw [hd]
    rfl
  · intro filename lvl
    rw [hd]
    rfl

theorem C4_trace_disabled_empty_witness :
    resolvedGlobal "" true noTraceOutput = noTraceOutput
    ∧ patternedRules "" true = []
    ∧ fromString "" true noTraceOutput = []
    ∧ matchfilters ⟨fromString "" true noTraceOutput⟩ "client.go" 1 = false := by
  have h := C4_trace_disabled_empty "" noTraceOutput (by decide) (by decide)
  exact ⟨by decide, by decide, h.1, h.2.2 "client.go" 1⟩

/-- C5 counterexample: for the log-stream field the merged value is not the
config-file value but its upper-cased form: with an empty environment value,
the line RLOG_LOG_STREAM=stdout merges to STDOUT, not stdout. -/
theorem C5_stream_uppercased_counterexample :
    emptyEnvConfig.logStream = ""
    ∧ (processConfigLine emptyEnvConfig "RLOG_LOG_STREAM=stdout").map
        rlogEnvConfig.logStream = some "STDOUT"
    ∧ ("STDOUT" : String) ≠ "stdout" := by
  refine ⟨rfl, ?_, by decide⟩
  decide

/-- C5 (amended): for every recognized setting field, the merged value
equals the value the config line contributes (the raw value, upper-cased
for the log-stream field) exactly when the environment value is empty or
the line carried the priority mark, and equals the environment value
otherwise; environment DEBUG with RLOG_LOG_LEVEL=INFO yields DEBUG, while
a priority line yields INFO for any environment value. -/
theorem C5_config_merge_amended (fld : SettingField) (cfg : rlogEnvConfig)
    (v : String) (pr : Bool) :
    getSetting fld (applySetting cfg (settingName fld) v pr) =
      (if pr = true ∨ getSetting fld cfg = "" then fileValueOf fld v
       else getSetting fld cfg)
    ∧ (processConfigLine { emptyEnvConfig with logLevel := "DEBUG" }
        "RLOG_LOG_LEVEL=INFO").map rlogEnvConfig.logLevel = some "DEBUG"
    ∧ (∀ e : String, (processConfigLine { emptyEnvConfig with logLevel := e }
        "!RLOG_LOG_LEVEL=INFO").map rlogEnvConfig.logLevel = some "INFO") := by
  refine ⟨?_, by decide, ?_⟩
  · cases fld <;>
      simp [applySetting, settingName, getSetting, fileValueOf, updateIfNeeded]
  · intro e
    rfl

/-- C6: blank lines are ignored, lines without an equals sign and lines with
an unrecognized setting name are skipped without stopping the parse - but a
line whose name part is empty (one starting with an equals sign) makes the
Go code panic at the name[0] index, killing the whole parse, so the claim
that no line can crash the process is wrong. -/
theorem C6_config_line_panic (cfg : rlogEnvConfig) :
    processConfigLine cfg "" = some cfg
    ∧ processConfigLine cfg "   " = some cfg
    ∧ processConfigLine cfg "malformed line without equals sign" = some cfg
    ∧ processConfigLine cfg "NOT_A_SETTING=x" = some cfg
    ∧ processConfigLine cfg "=INFO" = none
    ∧ processConfigLines cfg
        ["RLOG_LOG_LEVEL=DEBUG", "=INFO", "RLOG_LOG_FILE=f"] = none :=
  ⟨rfl, rfl, rfl, rfl, rfl, rfl⟩

/-- C7 counterexample: no non-empty pattern can make the filter decision
differ between two caller paths with the same (non-empty) file component and
different immediate parent directories - the match applies filepath.Base to
the reduced name, so only the file component matters. -/
theorem C7_distinguish_counterexample :
    ¬ ∃ (pattern : String) (fLevel lvl : Int) (p1 p2 : String),
        pattern ≠ ""
        ∧ (pathSplit p1).2 = (pathSplit p2).2
        ∧ (pathSplit p1).2 ≠ ""
        ∧ moduleNameOf p1 ≠ moduleNameOf p2
        ∧ basicLogDecision ⟨[⟨pattern, fLevel⟩]⟩ p1 lvl ≠
            basicLogDecision ⟨[⟨pattern, fLevel⟩]⟩ p2 lvl := by
  rintro ⟨pat, fLevel, lvl, p1, p2, -, heq, hne, -, hdec⟩
  apply hdec
  unfold basicLogDecision
  apply matchfilters_congr
  rw [goBase_moduleAndFileName p1 hne, goBase_moduleAndFileName p2 (heq ▸ hne)]
  exact heq

/-- C7 (amended): basicLog reduces the caller path to the form
immediate-parent-directory/file-base-name before matching, but because the
filter match takes filepath.Base of that reduced name, the decision depends
only on the file component: two caller paths with the same non-empty file
component always get the same decision, whatever their parent directories. -/
theorem C7_base_only_amended (spec : filterSpec) (lvl : Int) (p1 p2 : String) :
    (∀ p : String, moduleAndFileName p = moduleNameOf p ++ "/" ++ (pathSplit p).2)
    ∧ ((pathSplit p1).2 = (pathSplit p2).2 → (pathSplit p1).2 ≠ "" →
        basicLogDecision spec p1 lvl = basicLogDecision spec p2 lvl) := by
  refine ⟨moduleAndFileName_eq, fun heq hne => ?_⟩
  unfold basicLogDecision
  apply matchfilters_congr
  rw [goBase_moduleAndFileName p1 hne, goBase_moduleAndFileName p2 (heq ▸ hne)]
  exact heq

theorem C7_base_only_witness :
    (pathSplit "a/b/f.go").2 = (pathSplit "q/r/f.go").2
    ∧ (pathSplit "a/b/f.go").2 ≠ ""
    ∧ moduleNameOf "a/b/f.go" ≠ moduleNameOf "q/r/f.go"
    ∧ moduleAndFileName "a/b/f.go" = "b/f.go"
    ∧ basicLogDecision ⟨[⟨"f.go", 3⟩]⟩ "a/b/f.go" 2 =
        basicLogDecision ⟨[⟨"f.go", 3⟩]⟩ "q/r/f.go" 2 := by
  refine ⟨by decide, by decide, by decide, ?_, ?_⟩
  · have h := (C7_base_only_amended ⟨[⟨"f.go", 3⟩]⟩ 2 "a/b/f.go" "q/r/f.go").1
    rw [h "a/b/f.go"]
    decide
  · exact (C7_base_only_amended ⟨[⟨"f.go", 3⟩]⟩ 2 "a/b/f.go" "q/r/f.go").2
      (by decide) (by decide)

/-- C8: fromString silently skips invalid tokens - tokens with more than one
equals sign on both axes, tokens whose level does not parse as an integer on
the trace axis, and tokens whose level is not a known severity name or names
TRACE (case-insensitively) on the log axis; a skipped token contributes no
rule and leaves the pending global level unchanged, so fromString computes
the same result from the valid tokens alone. -/
theorem C8_invalid_tokens_skipped (axis : Bool) (f s : String) (dflt : Int) :
    (skippedToken axis f = true → tokenFilter axis f = none)
    ∧ (skippedToken axis f = true →
        ∀ st : Int × List filter, fromStringStep axis st f = st)
    ∧ fromString s axis dflt =
        (let st := ((goSplit s ',').filter fun t => !skippedToken axis t).foldl
          (fromStringStep axis) (dflt, [])
         if ¬axis ∨ st.1 ≠ noTraceOutput then st.2 ++ [⟨"", st.1⟩] else st.2) := by
  refine ⟨tokenFilter_of_skipped axis f,
    fun h st => fromStringStep_of_skipped axis f h st, ?_⟩
  unfold fromString
  rw [foldl_fromString_skip]

theorem C8_invalid_tokens_skipped_witness :
    skippedToken false "TRACE" = true
    ∧ tokenFilter false "TRACE" = none
    ∧ fromStringStep false (levelInfo, []) "TRACE" = (levelInfo, [])
    ∧ skippedToken true "x=y=3" = true
    ∧ fromStringStep true (noTraceOutput, []) "x=y=3" = (noTraceOutput, [])
    ∧ skippedToken true "a.go=high" = true
    ∧ fromStringStep true (noTraceOutput, []) "a.go=high" =
        (noTraceOutput, []) := by
  have h1 := C8_invalid_tokens_skipped false "TRACE" "" 0
  have h2 := C8_invalid_tokens_skipped true "x=y=3" "" 0
  have h3 := C8_invalid_tokens_skipped true "a.go=high" "" 0
  exact ⟨by decide, h1.1 (by decide), h1.2.1 (by decide) (levelInfo, []),
    by decide, h2.2.1 (by decide) (noTraceOutput, []),
    by decide, h3.2.1 (by decide) (noTraceOutput, [])⟩

/-- C9 counterexample: isTrueBoolString also accepts "t" (via Go ParseBool
after upper-casing), which is not a case variant of y, yes, true or 1 - so
"returns false for every other string" fails at "t". -/
theorem C9_t_counterexample :
    isTrueBoolString "t" = true
    ∧ goToUpper "t" ≠ "Y" ∧ goToUpper "t" ≠ "YES"
    ∧ goToUpper "t" ≠ "TRUE" ∧ goToUpper "t" ≠ "1" := by decide

/-- C9 (amended): isTrueBoolString returns true exactly for the strings y,
yes, true, 1 and t compared case-insensitively (their upper-case forms Y,
YES, TRUE, 1, T), and false for every other string. -/
theorem C9_recognizer_amended (s : String) :
    isTrueBoolString s =
      (goToUpper s == "Y" || goToUpper s == "YES" || goToUpper s == "TRUE" ||
       goToUpper s == "1" || goToUpper s == "T") := by
  have ht := goToUpper_ne_t s
  have htr := goToUpper_ne_true s
  have hTr := goToUpper_ne_True s
  unfold isTrueBoolString
  by_cases h1 : goToUpper s = "Y"
  · simp [h1, goParseBool]
  by_cases h2 : goToUpper s = "YES"
  · simp [h1, h2, goParseBool]
  by_cases h3 : goToUpper s = "1"
  · simp [h1, h2, h3, goParseBool]
  by_cases h4 : goToUpper s = "T"
  · simp [h1, h2, h3, h4, goParseBool, ht, htr, hTr]
  by_cases h5 : goToUpper s = "TRUE"
  · simp [h1, h2, h3, h4, h5, goParseBool, ht, htr, hTr]
  by_cases h6 : goToUpper s = "0" ∨ goToUpper s = "f" ∨ goToUpper s = "F" ∨
      goToUpper s = "false" ∨ goToUpper s = "FALSE" ∨ goToUpper s = "False"
  · simp [goParseBool, h1, h2, h3, h4, h5, h6, ht, htr, hTr]
  · simp [goParseBool, h1, h2, h3, h4, h5, h6, ht, htr, hTr]

/-- C10: every filter whose non-empty pattern is a malformed glob - one
that filepath.Match reports a pattern error for - never matches: the glob
error is discarded rather than surfaced, leaving a false match, match
returns (false, false) for every file name and every level, and FilterSpec
evaluation continues with the next rule, behaving as if the rule were
absent, so such a filter can never accept or consume a query. -/
theorem C10_bad_glob_never_matches (f : filter) (lvl : Int)
    (filename : String) (pre post : List filter)
    (hpat : f.Pattern ≠ "")
    (herr : ∀ n : String, goMatch f.Pattern n = .error ()) :
    goMatchBool f.Pattern (goBase filename) = false
    ∧ matchFilter f filename lvl = (false, false)
    ∧ matchfilters ⟨pre ++ f :: post⟩ filename lvl =
        matchfilters ⟨pre ++ post⟩ filename lvl := by
  have hgb : goMatchBool f.Pattern (goBase filename) = false := by
    unfold goMatchBool
    rw [herr (goBase filename)]
  have hmf : matchFilter f filename lvl = (false, false) := by
    unfold matchFilter
    rw [if_pos hpat, hgb]
    simp
  refine ⟨hgb, hmf, ?_⟩
  have hloop : ∀ pre : List filter,
      matchLoop filename lvl (pre ++ f :: post) =
        matchLoop filename lvl (pre ++ post) := by
    intro pre
    induction pre with
    | nil =>
      simp only [List.nil_append]
      rw [matchLoop, hmf]
      simp
    | cons g gs ih =>
      simp only [List.cons_append]
      rw [matchLoop, matchLoop, ih]
  unfold matchfilters
  rw [if_neg (by simp)]
  split
  · next h =>
    have hpp : pre = [] ∧ post = [] := by
      rw [List.isEmpty_iff, List.append_eq_nil] at h
      exact h
    obtain ⟨rfl, rfl⟩ := hpp
    simp only [List.nil_append]
    rw [matchLoop, hmf]
    simp [matchLoop]
  · exact hloop pre

theorem C10_bad_glob_never_matches_witness :
    (("[" : String) ≠ "")
    ∧ goMatchBool "[" (goBase "client.go") = false
    ∧ matchFilter ⟨"[", levelErr⟩ "client.go" levelWarn = (false, false)
    ∧ matchfilters ⟨[⟨"[", levelErr⟩, ⟨"", levelWarn⟩]⟩ "client.go" levelWarn =
        matchfilters ⟨[⟨"", levelWarn⟩]⟩ "client.go" levelWarn := by
  have h := C10_bad_glob_never_matches ⟨"[", levelErr⟩ levelWarn "client.go"
    [] [⟨"", levelWarn⟩] (by decide)
    (fun n => by
      show goMatchL ['['] n.data = Except.error ()
      exact goMatchL_bracket n.data)
  exact ⟨by decide, h.1, h.2.1, h.2.2⟩

end Rlog
